import Mathlib

/-!
Shallow embedding of the `reconnx` per-host latency state machine
(`machine.go`): the rolling-average window (`avgWindow`) and the
three-state hysteresis machine (`Machine`).  Go `float64` values are
modelled as rationals (`ℚ`); Go `uint` counters and sizes as `Nat`;
the panic in `newAvgWindow` as an `Option` result; the mutating
methods as pure state-passing functions.
-/

namespace Reconnx

/-- Go `State` enum: `Watching | Closing | Resting` (machine.go lines 27-44). -/
inductive State where
  | Watching : State
  | Closing : State
  | Resting : State
deriving DecidableEq, Repr

open State

/-- Go `avgWindow` struct (machine.go lines 83-87): fixed-capacity ring
buffer `values`, running `sum`, next-write cursor `index`. -/
structure AvgWindow where
  values : List ℚ
  sum : ℚ
  index : Nat
deriving DecidableEq, Repr

/-- Body of Go `newAvgWindow` after the capacity check (machine.go lines
93-99): `n` slots initialised to `def`, sum accumulated over the slots,
cursor 0. -/
def mkAvgWindow (n : Nat) (d : ℚ) : AvgWindow :=
  { values := List.replicate n d
    sum := (List.replicate n d).sum
    index := 0 }

/-- Go `newAvgWindow` (machine.go lines 89-100): panics (here `none`)
when `n < 1`, otherwise returns the initialised window. -/
def newAvgWindow (n : Nat) (d : ℚ) : Option AvgWindow :=
  if n < 1 then none else some (mkAvgWindow n d)

/-- Go `(*avgWindow).Avg` (machine.go lines 102-104): `sum / len(values)`. -/
def AvgWindow.Avg (aw : AvgWindow) : ℚ :=
  aw.sum / (aw.values.length : ℚ)

/-- Go `(*avgWindow).Push` (machine.go lines 106-116): evict the sample at
the cursor, store `value` there, advance the cursor with wraparound, adjust
the running sum; returns the evicted (dropped) value with the new window. -/
def AvgWindow.Push (aw : AvgWindow) (value : ℚ) : ℚ × AvgWindow :=
  let dropped := aw.values.getD aw.index 0
  let values := aw.values.set aw.index value
  let index := aw.index + 1
  let sum := aw.sum - dropped + value
  let index := if index ≥ values.length then 0 else index
  (dropped, { values := values, sum := sum, index := index })

/-- Go `MachineConfig` (machine.go lines 130-218). -/
structure MachineConfig where
  HistoricalSamples : Nat
  RecentSamples : Nat
  AbsThreshold : ℚ
  PctThreshold : ℚ
  ClosingStreak : Nat
  ClosingCount : Nat
  RestingCount : Nat
deriving DecidableEq, Repr

/-- Go `machine` struct (machine.go lines 118-127), minus the mutex. -/
structure Machine where
  state : State
  historical : AvgWindow
  recent : AvgWindow
  closedStreak : Nat
  closedCount : Nat
  restCount : Nat
  config : MachineConfig
deriving DecidableEq, Repr

/-- Go `valOrDef` (machine.go lines 306-312). -/
def valOrDef (val d : Nat) : Nat :=
  if val > 0 then val else d

/-- Go `DefaultHistoricalSamples` (machine.go line 16). -/
def DefaultHistoricalSamples : Nat := 10

/-- Go `DefaultRecentSamples` (machine.go line 21). -/
def DefaultRecentSamples : Nat := 3

/-- Go `NewMachine` (machine.go lines 221-229): both windows are created
with every slot equal to `config.AbsThreshold`; zero-valued fields of the
Go struct literal (state, counters) are the zero values. -/
def NewMachine (config : MachineConfig) : Machine :=
  let historicalLen := valOrDef config.HistoricalSamples DefaultHistoricalSamples
  let recentLen := valOrDef config.RecentSamples DefaultRecentSamples
  { state := Watching
    historical := mkAvgWindow historicalLen config.AbsThreshold
    recent := mkAvgWindow recentLen config.AbsThreshold
    closedStreak := 0
    closedCount := 0
    restCount := 0
    config := config }

/-- Go `(*machine).shift` (machine.go lines 258-264): clamp the value to
`AbsThreshold` when that threshold is positive, push it into the recent
window, and push the value dropped from recent into the historical window. -/
def Machine.shift (m : Machine) (value : ℚ) : Machine :=
  let value := if m.config.AbsThreshold > 0 then min value m.config.AbsThreshold else value
  let p := m.recent.Push value
  let q := m.historical.Push p.1
  { m with recent := p.2, historical := q.2 }

/-- Go `(*machine).closing` (machine.go lines 279-295). -/
def Machine.closing (m : Machine) (closed : Bool) : Machine :=
  let m := if closed then
      { m with closedCount := m.closedCount + 1, closedStreak := m.closedStreak + 1 }
    else
      { m with closedStreak := 0 }
  if m.closedStreak ≥ m.config.ClosingStreak ∨ m.closedCount ≥ m.config.ClosingCount then
    { m with closedCount := 0, closedStreak := 0,
             state := if m.config.RestingCount > 0 then Resting else Watching }
  else m

/-- Go `(*machine).watching` (machine.go lines 266-277): the absolute test
is tried first, then the percentage test; if the state became `Closing`,
the closing logic runs in the same call with `closed = false`. -/
def Machine.watching (m : Machine) : Machine :=
  let recentAvg := m.recent.Avg
  let m := if m.config.AbsThreshold > 0 ∧ recentAvg ≥ m.config.AbsThreshold then
      { m with state := Closing }
    else if m.config.PctThreshold > 0 ∧
        recentAvg ≥ m.historical.Avg * ((100 + m.config.PctThreshold) / 100) then
      { m with state := Closing }
    else m
  if m.state = Closing then m.closing false else m

/-- Go `(*machine).resting` (machine.go lines 297-304). -/
def Machine.resting (m : Machine) : Machine :=
  let m := { m with restCount := m.restCount + 1 }
  if m.restCount ≥ m.config.RestingCount then
    Machine.watching { m with restCount := 0, state := Watching }
  else m

/-- Go `(*machine).Next` (machine.go lines 237-256): record the entry
state, shift the new value into the windows, dispatch on the entry state,
and return `(next, prev)` together with the updated machine. -/
def Machine.Next (m : Machine) (value : ℚ) (closed : Bool) : State × State × Machine :=
  let prev := m.state
  let m := m.shift value
  let m := match prev with
    | Watching => m.watching
    | Closing => m.closing closed
    | Resting => m.resting
  (m.state, prev, m)

/-- Go `(*machine).State` (machine.go lines 231-235). -/
def Machine.StateOf (m : Machine) : State := m.state

/-- Machine states reachable from `NewMachine config` by `Next` calls. -/
inductive Reachable (config : MachineConfig) : Machine → Prop where
  | init : Reachable config (NewMachine config)
  | step {m : Machine} (value : ℚ) (closed : Bool) :
      Reachable config m → Reachable config (m.Next value closed).2.2

/-- A finite sequence of pushes applied to a window, oldest first. -/
def pushAll (aw : AvgWindow) (vs : List ℚ) : AvgWindow :=
  vs.foldl (fun w v => (w.Push v).2) aw

/-- Instrumented `closing`: same computation as `Machine.closing`, but also
returns the list of values assigned to the `state` field during the call,
in order. -/
def Machine.closingT (m : Machine) (closed : Bool) : Machine × List State :=
  let m := if closed then
      { m with closedCount := m.closedCount + 1, closedStreak := m.closedStreak + 1 }
    else
      { m with closedStreak := 0 }
  if m.closedStreak ≥ m.config.ClosingStreak ∨ m.closedCount ≥ m.config.ClosingCount then
    let s := if m.config.RestingCount > 0 then Resting else Watching
    ({ m with closedCount := 0, closedStreak := 0, state := s }, [s])
  else (m, [])

/-- Instrumented `watching`: same computation as `Machine.watching`, also
returning the states assigned during the call, in order. -/
def Machine.watchingT (m : Machine) : Machine × List State :=
  let recentAvg := m.recent.Avg
  let p : Machine × List State :=
    if m.config.AbsThreshold > 0 ∧ recentAvg ≥ m.config.AbsThreshold then
      ({ m with state := Closing }, [Closing])
    else if m.config.PctThreshold > 0 ∧
        recentAvg ≥ m.historical.Avg * ((100 + m.config.PctThreshold) / 100) then
      ({ m with state := Closing }, [Closing])
    else (m, [])
  if p.1.state = Closing then
    let q := p.1.closingT false
    (q.1, p.2 ++ q.2)
  else p

/-- Instrumented `resting`: same computation as `Machine.resting`, also
returning the states assigned during the call, in order. -/
def Machine.restingT (m : Machine) : Machine × List State :=
  let m := { m with restCount := m.restCount + 1 }
  if m.restCount ≥ m.config.RestingCount then
    let m := { m with restCount := 0, state := Watching }
    let q := m.watchingT
    (q.1, Watching :: q.2)
  else (m, [])

/-- Instrumented `Next`: returns `(next, prev, machine, trace)` where
`trace` lists every value assigned to the `state` field during the call. -/
def Machine.NextT (m : Machine) (value : ℚ) (closed : Bool) :
    State × State × Machine × List State :=
  let prev := m.state
  let m := m.shift value
  let p := match prev with
    | Watching => m.watchingT
    | Closing => m.closingT closed
    | Resting => m.restingT
  (p.1.state, prev, p.1, p.2)

/-- Structural invariant of a machine reachable under `config`: the
configuration is stored unchanged, both windows keep their construction
capacity with an in-range cursor and a faithful running sum, counters are
zero outside their owning state, and (when the absolute threshold is
positive) every buffered sample is at most `AbsThreshold`. -/
def MInv (config : MachineConfig) (m : Machine) : Prop :=
  m.config = config ∧
  m.recent.values.length = valOrDef config.RecentSamples DefaultRecentSamples ∧
  m.historical.values.length = valOrDef config.HistoricalSamples DefaultHistoricalSamples ∧
  m.recent.index < m.recent.values.length ∧
  m.historical.index < m.historical.values.length ∧
  m.recent.sum = m.recent.values.sum ∧
  m.historical.sum = m.historical.values.sum ∧
  (m.state ≠ Closing → m.closedStreak = 0 ∧ m.closedCount = 0) ∧
  (m.state ≠ Resting → m.restCount = 0) ∧
  (config.AbsThreshold > 0 →
    (∀ x ∈ m.recent.values, x ≤ config.AbsThreshold) ∧
    (∀ x ∈ m.historical.values, x ≤ config.AbsThreshold))

/-- Concrete configuration for the end-to-end example of §8 of the spec. -/
def cfgExample : MachineConfig :=
  { HistoricalSamples := 1, RecentSamples := 1, AbsThreshold := 1, PctThreshold := 0,
    ClosingStreak := 1, ClosingCount := 1, RestingCount := 0 }

/-- Concrete configuration with `ClosingStreak = ClosingCount = 0`: the
machine can pass through `Closing` and settle back at `Watching` within a
single `Next` call. -/
def cfgZero : MachineConfig :=
  { HistoricalSamples := 1, RecentSamples := 1, AbsThreshold := 1, PctThreshold := 0,
    ClosingStreak := 0, ClosingCount := 0, RestingCount := 0 }

/-- A concrete machine sitting in the `Closing` state under the example
configuration (used to exercise the `Closing`-state counter logic). -/
def mClosing : Machine :=
  { state := Closing
    historical := mkAvgWindow 1 1
    recent := mkAvgWindow 1 1
    closedStreak := 0
    closedCount := 0
    restCount := 0
    config := cfgExample }

end Reconnx

namespace Reconnx

open State

lemma sum_set_getD (l : List ℚ) (i : Nat) (v : ℚ) (h : i < l.length) :
    (l.set i v).sum = l.sum - l.getD i 0 + v := by
  induction l generalizing i with
  | nil => simp at h
  | cons a t ih =>
    cases i with
    | zero => simp [List.set]; ring
    | succ j =>
      simp only [List.set, List.sum_cons, List.getD_cons_succ]
      rw [ih j (by simpa using h)]
      ring

lemma Push_fst (aw : AvgWindow) (v : ℚ) :
    (aw.Push v).1 = aw.values.getD aw.index 0 := rfl

lemma Push_values (aw : AvgWindow) (v : ℚ) :
    ((aw.Push v).2).values = aw.values.set aw.index v := rfl

lemma Push_sum (aw : AvgWindow) (v : ℚ) :
    ((aw.Push v).2).sum = aw.sum - aw.values.getD aw.index 0 + v := rfl

lemma Push_length (aw : AvgWindow) (v : ℚ) :
    ((aw.Push v).2).values.length = aw.values.length := by
  rw [Push_values, List.length_set]

lemma Push_index_lt (aw : AvgWindow) (v : ℚ) (h : aw.index < aw.values.length) :
    ((aw.Push v).2).index < ((aw.Push v).2).values.length := by
  show (if aw.index + 1 ≥ (aw.values.set aw.index v).length then 0 else aw.index + 1) <
    (aw.values.set aw.index v).length
  rw [List.length_set]
  split
  · omega
  · omega

lemma Push_sum_inv (aw : AvgWindow) (v : ℚ) (h : aw.index < aw.values.length)
    (hs : aw.sum = aw.values.sum) :
    ((aw.Push v).2).sum = ((aw.Push v).2).values.sum := by
  rw [Push_sum, Push_values, sum_set_getD _ _ _ h, hs]

lemma Push_mem (aw : AvgWindow) (v x : ℚ) (h : x ∈ ((aw.Push v).2).values) :
    x = v ∨ x ∈ aw.values := by
  rw [Push_values] at h
  rcases List.mem_or_eq_of_mem_set h with h' | h'
  · exact Or.inr h'
  · exact Or.inl h'

lemma Push_dropped_mem (aw : AvgWindow) (v : ℚ) (h : aw.index < aw.values.length) :
    (aw.Push v).1 ∈ aw.values := by
  rw [Push_fst, List.getD_eq_getElem _ _ h]
  exact List.getElem_mem h

/-- C6: `Push` evicts the sample at the cursor and returns it, overwrites
that slot with the pushed value, adjusts the running sum by the difference,
and advances the cursor modulo the capacity; it is a total function (no
failure mode). -/
theorem push_spec (aw : AvgWindow) (v : ℚ) (h : aw.index < aw.values.length) :
    (aw.Push v).1 = aw.values.get ⟨aw.index, h⟩ ∧
    ((aw.Push v).2).values = aw.values.set aw.index v ∧
    ((aw.Push v).2).values.length = aw.values.length ∧
    ((aw.Push v).2).sum = aw.sum + v - (aw.Push v).1 ∧
    ((aw.Push v).2).index = (aw.index + 1) % aw.values.length := by
  refine ⟨?_, Push_values aw v, Push_length aw v, ?_, ?_⟩
  · rw [Push_fst, List.getD_eq_getElem _ _ h]
    simp
  · rw [Push_sum, Push_fst]
    ring
  · show (if aw.index + 1 ≥ (aw.values.set aw.index v).length then 0 else aw.index + 1) =
      (aw.index + 1) % aw.values.length
    rw [List.length_set]
    split
    · have : aw.index + 1 = aw.values.length := by omega
      rw [this, Nat.mod_self]
    · rw [Nat.mod_eq_of_lt (by omega)]

/-- Witness for C6 at a concrete window. -/
theorem push_spec_witness :
    (mkAvgWindow 2 7).index < (mkAvgWindow 2 7).values.length ∧
    (((mkAvgWindow 2 7).Push 3).1 =
        (mkAvgWindow 2 7).values.get ⟨(mkAvgWindow 2 7).index, by decide⟩ ∧
      (((mkAvgWindow 2 7).Push 3).2).values = (mkAvgWindow 2 7).values.set (mkAvgWindow 2 7).index 3 ∧
      (((mkAvgWindow 2 7).Push 3).2).values.length = (mkAvgWindow 2 7).values.length ∧
      (((mkAvgWindow 2 7).Push 3).2).sum = (mkAvgWindow 2 7).sum + 3 - ((mkAvgWindow 2 7).Push 3).1 ∧
      (((mkAvgWindow 2 7).Push 3).2).index = ((mkAvgWindow 2 7).index + 1) % (mkAvgWindow 2 7).values.length) :=
  ⟨by decide, push_spec (mkAvgWindow 2 7) 3 (by decide)⟩

end Reconnx

namespace Reconnx

open State

lemma pushAll_cons (aw : AvgWindow) (v : ℚ) (vs : List ℚ) :
    pushAll aw (v :: vs) = pushAll ((aw.Push v).2) vs := rfl

lemma pushAll_inv (vs : List ℚ) (aw : AvgWindow)
    (h1 : aw.index < aw.values.length) (h2 : aw.sum = aw.values.sum) :
    (pushAll aw vs).index < (pushAll aw vs).values.length ∧
    (pushAll aw vs).sum = (pushAll aw vs).values.sum ∧
    (pushAll aw vs).values.length = aw.values.length := by
  induction vs generalizing aw with
  | nil => exact ⟨h1, h2, rfl⟩
  | cons v vs ih =>
    have step := ih ((aw.Push v).2) (Push_index_lt aw v h1) (Push_sum_inv aw v h1 h2)
    rw [pushAll_cons]
    refine ⟨step.1, step.2.1, ?_⟩
    rw [step.2.2, Push_length]

/-- C7: after any finite sequence of pushes applied to a freshly
constructed window of capacity `n ≥ 1`, the stored running sum equals the
exact sum of the buffer contents, and the buffer length is still exactly
`n`. -/
theorem pushAll_sum_invariant (n : Nat) (d : ℚ) (vs : List ℚ) (h : 1 ≤ n) :
    (pushAll (mkAvgWindow n d) vs).sum = (pushAll (mkAvgWindow n d) vs).values.sum ∧
    (pushAll (mkAvgWindow n d) vs).values.length = n := by
  have h1 : (mkAvgWindow n d).index < (mkAvgWindow n d).values.length := by
    show 0 < (List.replicate n d).length
    rw [List.length_replicate]
    omega
  have h2 : (mkAvgWindow n d).sum = (mkAvgWindow n d).values.sum := rfl
  have step := pushAll_inv vs (mkAvgWindow n d) h1 h2
  refine ⟨step.2.1, ?_⟩
  rw [step.2.2]
  exact List.length_replicate n d

/-- Witness for C7 at a concrete window and push sequence. -/
theorem pushAll_sum_invariant_witness :
    1 ≤ 2 ∧
    ((pushAll (mkAvgWindow 2 7) [1, 2, 3]).sum =
        (pushAll (mkAvgWindow 2 7) [1, 2, 3]).values.sum ∧
      (pushAll (mkAvgWindow 2 7) [1, 2, 3]).values.length = 2) :=
  ⟨by decide, pushAll_sum_invariant 2 7 [1, 2, 3] (by decide)⟩

/-- C8: constructing a window fails exactly when the requested capacity is
smaller than 1; on success all `n` slots hold the default value, the sum is
`n` times the default, and the average is immediately the default value. -/
theorem newAvgWindow_spec (n : Nat) (d : ℚ) :
    (newAvgWindow n d = none ↔ n < 1) ∧
    (∀ w, newAvgWindow n d = some w →
      w.values = List.replicate n d ∧ w.sum = (n : ℚ) * d ∧ w.Avg = d) := by
  unfold newAvgWindow
  split
  · refine ⟨by simp [*], ?_⟩
    intro w hw
    simp at hw
  · rename_i hn
    refine ⟨by simp [hn], ?_⟩
    intro w hw
    have hw' : w = mkAvgWindow n d := by
      injection hw with h
      exact h.symm
    subst hw'
    have hlen : (mkAvgWindow n d).values.length = n := List.length_replicate n d
    have hsum : (mkAvgWindow n d).sum = (n : ℚ) * d := by
      show (List.replicate n d).sum = (n : ℚ) * d
      rw [List.sum_replicate, nsmul_eq_mul]
    refine ⟨rfl, hsum, ?_⟩
    show (mkAvgWindow n d).sum / ((mkAvgWindow n d).values.length : ℚ) = d
    rw [hlen, hsum]
    have hn' : (n : ℚ) ≠ 0 := by
      have : 0 < n := by omega
      exact_mod_cast Nat.pos_iff_ne_zero.mp this
    exact mul_div_cancel_left₀ d hn'

/-- Witness for C8 at concrete capacities 0 and 2. -/
theorem newAvgWindow_spec_witness :
    newAvgWindow 0 (5 : ℚ) = none ∧
    newAvgWindow 2 (5 : ℚ) = some (mkAvgWindow 2 5) ∧
    ((mkAvgWindow 2 5).values = List.replicate 2 5 ∧
      (mkAvgWindow 2 5).sum = ((2 : Nat) : ℚ) * 5 ∧ (mkAvgWindow 2 5).Avg = 5) :=
  ⟨(newAvgWindow_spec 0 5).1.mpr (by decide), by simp [newAvgWindow],
    (newAvgWindow_spec 2 5).2 (mkAvgWindow 2 5) (by simp [newAvgWindow])⟩

end Reconnx

namespace Reconnx

open State

lemma shift_state (m : Machine) (v : ℚ) : (m.shift v).state = m.state := rfl

lemma shift_config (m : Machine) (v : ℚ) : (m.shift v).config = m.config := rfl

lemma shift_closedStreak (m : Machine) (v : ℚ) : (m.shift v).closedStreak = m.closedStreak := rfl

lemma shift_closedCount (m : Machine) (v : ℚ) : (m.shift v).closedCount = m.closedCount := rfl

lemma shift_restCount (m : Machine) (v : ℚ) : (m.shift v).restCount = m.restCount := rfl

lemma next_watching (m : Machine) (v : ℚ) (c : Bool) (h : m.state = Watching) :
    m.Next v c = ((m.shift v).watching.state, Watching, (m.shift v).watching) := by
  unfold Machine.Next
  rw [h]

lemma next_closing (m : Machine) (v : ℚ) (c : Bool) (h : m.state = Closing) :
    m.Next v c = (((m.shift v).closing c).state, Closing, (m.shift v).closing c) := by
  unfold Machine.Next
  rw [h]

lemma next_resting (m : Machine) (v : ℚ) (c : Bool) (h : m.state = Resting) :
    m.Next v c = ((m.shift v).resting.state, Resting, (m.shift v).resting) := by
  unfold Machine.Next
  rw [h]

lemma watching_eq (m : Machine) (h : m.state = Watching) :
    m.watching =
      if (m.config.AbsThreshold > 0 ∧ m.recent.Avg ≥ m.config.AbsThreshold) ∨
          (m.config.PctThreshold > 0 ∧
            m.recent.Avg ≥ m.historical.Avg * ((100 + m.config.PctThreshold) / 100)) then
        Machine.closing { m with state := Closing } false
      else m := by
  by_cases hA : m.config.AbsThreshold > 0 ∧ m.recent.Avg ≥ m.config.AbsThreshold
  · simp only [Machine.watching, if_pos hA, if_pos (Or.inl hA)]
    simp
  · by_cases hP : m.config.PctThreshold > 0 ∧
        m.recent.Avg ≥ m.historical.Avg * ((100 + m.config.PctThreshold) / 100)
    · simp only [Machine.watching, if_neg hA, if_pos hP, if_pos (Or.inr hP)]
      simp
    · simp only [Machine.watching, if_neg hA, if_neg hP, if_neg (not_or_intro hA hP), h]
      simp

lemma pct_factor (p : ℚ) : (100 + p) / 100 = 1 + p / 100 := by
  rw [add_div]
  norm_num

/-- C1: from `Watching`, a `Next(value, closed)` call transitions to
`Closing` exactly when the absolute trigger (threshold positive and
post-shift recent average at or above it) or the percentage trigger
(threshold positive and recent average at or above the historical average
times `1 + pct/100`) fires; and when it does, the call continues by running
the `Closing` counter logic with `closed = false` on the transitioned
machine. -/
theorem watching_next_spec (m : Machine) (v : ℚ) (c : Bool) (h : m.state = Watching) :
    ((m.config.AbsThreshold > 0 ∧ (m.shift v).recent.Avg ≥ m.config.AbsThreshold) ∨
        (m.config.PctThreshold > 0 ∧
          (m.shift v).recent.Avg ≥
            (m.shift v).historical.Avg * (1 + m.config.PctThreshold / 100)) →
      m.Next v c = ((Machine.closing { m.shift v with state := Closing } false).state, Watching,
        Machine.closing { m.shift v with state := Closing } false)) ∧
    (¬((m.config.AbsThreshold > 0 ∧ (m.shift v).recent.Avg ≥ m.config.AbsThreshold) ∨
        (m.config.PctThreshold > 0 ∧
          (m.shift v).recent.Avg ≥
            (m.shift v).historical.Avg * (1 + m.config.PctThreshold / 100))) →
      m.Next v c = (Watching, Watching, m.shift v)) := by
  have hs : (m.shift v).state = Watching := by rw [shift_state, h]
  have hw := watching_eq (m.shift v) hs
  have hcfg : (m.shift v).config = m.config := rfl
  have hfac : (100 + m.config.PctThreshold) / 100 = 1 + m.config.PctThreshold / 100 :=
    pct_factor m.config.PctThreshold
  rw [next_watching m v c h, hw, hcfg, hfac]
  constructor
  · intro hfire
    rw [if_pos hfire]
    exact rfl
  · intro hfire
    rw [if_neg hfire, hs]

/-- Witness for C1: the spec example configuration, fed 2.0 from the
initial (Watching) machine, fires the absolute trigger. -/
theorem watching_next_spec_witness :
    (NewMachine cfgExample).state = Watching ∧
    ((NewMachine cfgExample).config.AbsThreshold > 0 ∧
      ((NewMachine cfgExample).shift 2).recent.Avg ≥ (NewMachine cfgExample).config.AbsThreshold) ∧
    (NewMachine cfgExample).Next 2 false =
      ((Machine.closing { (NewMachine cfgExample).shift 2 with state := Closing } false).state,
        Watching, Machine.closing { (NewMachine cfgExample).shift 2 with state := Closing } false) := by
  have h1 : (NewMachine cfgExample).state = Watching := rfl
  have h2 : (NewMachine cfgExample).config.AbsThreshold > 0 ∧
      ((NewMachine cfgExample).shift 2).recent.Avg ≥ (NewMachine cfgExample).config.AbsThreshold := by
    constructor
    · norm_num [NewMachine, cfgExample]
    · norm_num [NewMachine, cfgExample, Machine.shift, mkAvgWindow, AvgWindow.Push,
        AvgWindow.Avg, valOrDef]
  exact ⟨h1, h2, (watching_next_spec (NewMachine cfgExample) 2 false h1).1 (Or.inl h2)⟩

end Reconnx

namespace Reconnx

open State

lemma closing_eq (m : Machine) (c : Bool) :
    m.closing c =
      if (if c then m.closedStreak + 1 else 0) ≥ m.config.ClosingStreak ∨
          (if c then m.closedCount + 1 else m.closedCount) ≥ m.config.ClosingCount then
        { m with closedCount := 0, closedStreak := 0,
                 state := if m.config.RestingCount > 0 then Resting else Watching }
      else
        { m with closedCount := if c then m.closedCount + 1 else m.closedCount,
                 closedStreak := if c then m.closedStreak + 1 else 0 } := by
  cases c <;> simp [Machine.closing]

/-- C2: from `Closing`, a `Next(value, closed)` call increments both
counters when `closed` is true and resets only the streak when `closed` is
false; if the updated streak reaches `ClosingStreak` or the updated count
reaches `ClosingCount`, both counters reset to 0 and the machine moves to
`Resting` when `RestingCount > 0` and to `Watching` otherwise; else it
stays in `Closing` with the updated counters. -/
theorem closing_next_spec (m : Machine) (v : ℚ) (c : Bool) (h : m.state = Closing) :
    ((if c then m.closedStreak + 1 else 0) ≥ m.config.ClosingStreak ∨
        (if c then m.closedCount + 1 else m.closedCount) ≥ m.config.ClosingCount →
      (m.Next v c).2.2.closedStreak = 0 ∧ (m.Next v c).2.2.closedCount = 0 ∧
      (m.Next v c).1 = (if m.config.RestingCount > 0 then Resting else Watching)) ∧
    (¬((if c then m.closedStreak + 1 else 0) ≥ m.config.ClosingStreak ∨
        (if c then m.closedCount + 1 else m.closedCount) ≥ m.config.ClosingCount) →
      (m.Next v c).2.2.closedStreak = (if c then m.closedStreak + 1 else 0) ∧
      (m.Next v c).2.2.closedCount = (if c then m.closedCount + 1 else m.closedCount) ∧
      (m.Next v c).1 = Closing) := by
  rw [next_closing m v c h, closing_eq]
  simp only [shift_closedStreak, shift_closedCount, shift_config]
  constructor
  · intro hex
    rw [if_pos hex]
    exact ⟨rfl, rfl, rfl⟩
  · intro hex
    rw [if_neg hex]
    exact ⟨rfl, rfl, h⟩

/-- Witness for C2: one closed observation in `Closing` with streak and
count thresholds 1 exits to `Watching` (RestingCount = 0). -/
theorem closing_next_spec_witness :
    mClosing.state = Closing ∧
    ((if true then mClosing.closedStreak + 1 else 0) ≥ mClosing.config.ClosingStreak ∨
      (if true then mClosing.closedCount + 1 else mClosing.closedCount) ≥ mClosing.config.ClosingCount) ∧
    ((mClosing.Next 2 true).2.2.closedStreak = 0 ∧ (mClosing.Next 2 true).2.2.closedCount = 0 ∧
      (mClosing.Next 2 true).1 =
        (if mClosing.config.RestingCount > 0 then Resting else Watching)) :=
  ⟨rfl, by decide, (closing_next_spec mClosing 2 true rfl).1 (by decide)⟩

end Reconnx

namespace Reconnx

open State

/-- C4: the end-to-end example: with absolute threshold 1, window sizes 1,
streak/count thresholds 1 and no resting period, feeding (2.0, false) then
(2.0, true) gives (Watching→Closing) then (Closing→Watching). -/
theorem example_sequence :
    ((NewMachine cfgExample).Next 2 false).1 = Closing ∧
    ((NewMachine cfgExample).Next 2 false).2.1 = Watching ∧
    ((((NewMachine cfgExample).Next 2 false).2.2).Next 2 true).1 = Watching ∧
    ((((NewMachine cfgExample).Next 2 false).2.2).Next 2 true).2.1 = Closing := by
  norm_num [Machine.Next, Machine.shift, Machine.watching, Machine.closing, Machine.resting,
    NewMachine, mkAvgWindow, AvgWindow.Push, AvgWindow.Avg, valOrDef, cfgExample,
    DefaultHistoricalSamples, DefaultRecentSamples]

lemma closing_state_ne (m : Machine) (c : Bool)
    (h : m.config.ClosingStreak = 0 ∨ m.config.ClosingCount = 0) :
    (m.closing c).state ≠ Closing := by
  have hex : (if c then m.closedStreak + 1 else 0) ≥ m.config.ClosingStreak ∨
      (if c then m.closedCount + 1 else m.closedCount) ≥ m.config.ClosingCount := by
    rcases h with h0 | h0
    · exact Or.inl (by rw [h0]; exact Nat.zero_le _)
    · exact Or.inr (by rw [h0]; exact Nat.zero_le _)
  rw [closing_eq, if_pos hex]
  show (if m.config.RestingCount > 0 then Resting else Watching) ≠ Closing
  split <;> simp

lemma closing_config (m : Machine) (c : Bool) : (m.closing c).config = m.config := by
  rw [closing_eq]
  split <;> split <;> rfl

lemma watching_state_ne (m : Machine) (hW : m.state = Watching)
    (h : m.config.ClosingStreak = 0 ∨ m.config.ClosingCount = 0) :
    m.watching.state ≠ Closing := by
  rw [watching_eq m hW]
  split
  · exact closing_state_ne _ false h
  · rw [hW]
    simp

lemma watching_config (m : Machine) (hW : m.state = Watching) :
    m.watching.config = m.config := by
  rw [watching_eq m hW]
  split
  · rw [closing_config]
  · rfl

lemma resting_state_ne (m : Machine) (hR : m.state = Resting)
    (h : m.config.ClosingStreak = 0 ∨ m.config.ClosingCount = 0) :
    m.resting.state ≠ Closing := by
  simp only [Machine.resting]
  split
  · exact watching_state_ne _ rfl h
  · rw [show ({ m with restCount := m.restCount + 1 } : Machine).state = m.state from rfl, hR]
    simp

lemma resting_config (m : Machine) : m.resting.config = m.config := by
  simp only [Machine.resting]
  split
  · rw [watching_config _ rfl]
  · rfl

lemma next_ne_closing (m : Machine) (v : ℚ) (c : Bool)
    (h : m.config.ClosingStreak = 0 ∨ m.config.ClosingCount = 0) :
    (m.Next v c).1 ≠ Closing := by
  have h' : (m.shift v).config.ClosingStreak = 0 ∨ (m.shift v).config.ClosingCount = 0 := h
  cases hs : m.state with
  | Watching =>
    rw [next_watching m v c hs]
    exact watching_state_ne (m.shift v) (by rw [shift_state, hs]) h'
  | Closing =>
    rw [next_closing m v c hs]
    exact closing_state_ne (m.shift v) c h'
  | Resting =>
    rw [next_resting m v c hs]
    exact resting_state_ne (m.shift v) (by rw [shift_state, hs]) h'

lemma next_config (m : Machine) (v : ℚ) (c : Bool) :
    (m.Next v c).2.2.config = m.config := by
  cases hs : m.state with
  | Watching =>
    rw [next_watching m v c hs]
    show (m.shift v).watching.config = m.config
    rw [watching_config _ (by rw [shift_state, hs]), shift_config]
  | Closing =>
    rw [next_closing m v c hs]
    show ((m.shift v).closing c).config = m.config
    rw [closing_config, shift_config]
  | Resting =>
    rw [next_resting m v c hs]
    show (m.shift v).resting.config = m.config
    rw [resting_config, shift_config]

lemma reachable_config {config : MachineConfig} {m : Machine} (h : Reachable config m) :
    m.config = config := by
  induction h with
  | init => rfl
  | step v c hr ih => rw [next_config]; exact ih

lemma reachable_state_ne_closing {config : MachineConfig} {m : Machine}
    (h : config.ClosingStreak = 0 ∨ config.ClosingCount = 0) (hm : Reachable config m) :
    m.state ≠ Closing := by
  induction hm with
  | init => simp [NewMachine]
  | step v c hr ih =>
    refine next_ne_closing _ v c ?_
    rw [reachable_config hr]
    exact h

/-- C3: when `ClosingStreak` or `ClosingCount` is configured as 0, the
exit-from-Closing test is satisfied by the very first sample, so a machine
that enters `Closing` leaves it within the same call: no reachable state is
`Closing` (so `State()` never reports it) and no `Next` call ever returns
`Closing` as the next state. -/
theorem zero_thresholds_no_closing (config : MachineConfig)
    (h : config.ClosingStreak = 0 ∨ config.ClosingCount = 0)
    (m : Machine) (hm : Reachable config m) :
    m.StateOf ≠ Closing ∧ ∀ v c, (m.Next v c).1 ≠ Closing := by
  have h' : m.config.ClosingStreak = 0 ∨ m.config.ClosingCount = 0 := by
    rw [reachable_config hm]; exact h
  exact ⟨reachable_state_ne_closing h hm, fun v c => next_ne_closing m v c h'⟩

/-- Witness for C3 at the zero-threshold configuration and initial machine. -/
theorem zero_thresholds_no_closing_witness :
    (cfgZero.ClosingStreak = 0 ∨ cfgZero.ClosingCount = 0) ∧
    (NewMachine cfgZero).StateOf ≠ Closing ∧
    ((NewMachine cfgZero).Next 2 true).1 ≠ Closing :=
  ⟨Or.inl rfl,
    (zero_thresholds_no_closing cfgZero (Or.inl rfl) _ Reachable.init).1,
    (zero_thresholds_no_closing cfgZero (Or.inl rfl) _ Reachable.init).2 2 true⟩

end Reconnx

namespace Reconnx

open State

lemma closingT_eq (m : Machine) (c : Bool) :
    m.closingT c =
      if (if c then m.closedStreak + 1 else 0) ≥ m.config.ClosingStreak ∨
          (if c then m.closedCount + 1 else m.closedCount) ≥ m.config.ClosingCount then
        ({ m with closedCount := 0, closedStreak := 0,
                  state := if m.config.RestingCount > 0 then Resting else Watching },
          [if m.config.RestingCount > 0 then Resting else Watching])
      else
        ({ m with closedCount := if c then m.closedCount + 1 else m.closedCount,
                  closedStreak := if c then m.closedStreak + 1 else 0 }, []) := by
  cases c <;> simp [Machine.closingT]

lemma closingT_fst (m : Machine) (c : Bool) : (m.closingT c).1 = m.closing c := by
  rw [closingT_eq, closing_eq]
  by_cases hex : (if c then m.closedStreak + 1 else 0) ≥ m.config.ClosingStreak ∨
      (if c then m.closedCount + 1 else m.closedCount) ≥ m.config.ClosingCount
  · rw [if_pos hex, if_pos hex]
  · rw [if_neg hex, if_neg hex]

lemma closingT_state (m : Machine) (c : Bool) :
    (m.closingT c).1.state = (m.closingT c).2.getLastD m.state := by
  rw [closingT_eq]
  by_cases hex : (if c then m.closedStreak + 1 else 0) ≥ m.config.ClosingStreak ∨
      (if c then m.closedCount + 1 else m.closedCount) ≥ m.config.ClosingCount
  · rw [if_pos hex]
    exact rfl
  · rw [if_neg hex]
    exact rfl

lemma watchingT_fst (m : Machine) : (m.watchingT).1 = m.watching := by
  simp only [Machine.watchingT, Machine.watching]
  split_ifs <;> simp [closingT_fst]

lemma watchingT_state (m : Machine) :
    (m.watchingT).1.state = (m.watchingT).2.getLastD m.state := by
  by_cases hA : m.config.AbsThreshold > 0 ∧ m.recent.Avg ≥ m.config.AbsThreshold
  · simp only [Machine.watchingT, if_pos hA, if_true]
    show (Machine.closingT _ false).1.state = ([Closing] ++ (Machine.closingT _ false).2).getLastD m.state
    rw [List.singleton_append, List.getLastD_cons]
    exact closingT_state _ false
  · by_cases hP : m.config.PctThreshold > 0 ∧
        m.recent.Avg ≥ m.historical.Avg * ((100 + m.config.PctThreshold) / 100)
    · simp only [Machine.watchingT, if_neg hA, if_pos hP, if_true]
      show (Machine.closingT _ false).1.state =
        ([Closing] ++ (Machine.closingT _ false).2).getLastD m.state
      rw [List.singleton_append, List.getLastD_cons]
      exact closingT_state _ false
    · simp only [Machine.watchingT, if_neg hA, if_neg hP]
      by_cases hC : m.state = Closing
      · rw [if_pos hC]
        show (m.closingT false).1.state = ([] ++ (m.closingT false).2).getLastD m.state
        rw [List.nil_append]
        exact closingT_state m false
      · rw [if_neg hC]
        rfl

lemma restingT_fst (m : Machine) : (m.restingT).1 = m.resting := by
  simp only [Machine.restingT, Machine.resting]
  split
  · exact watchingT_fst _
  · rfl

lemma restingT_state (m : Machine) :
    (m.restingT).1.state = (m.restingT).2.getLastD m.state := by
  simp only [Machine.restingT]
  split
  · rw [List.getLastD_cons]
    exact watchingT_state _
  · rfl

lemma nextT_watching (m : Machine) (v : ℚ) (c : Bool) (h : m.state = Watching) :
    m.NextT v c = ((m.shift v).watchingT.1.state, Watching,
      (m.shift v).watchingT.1, (m.shift v).watchingT.2) := by
  unfold Machine.NextT
  rw [h]

lemma nextT_closing (m : Machine) (v : ℚ) (c : Bool) (h : m.state = Closing) :
    m.NextT v c = (((m.shift v).closingT c).1.state, Closing,
      ((m.shift v).closingT c).1, ((m.shift v).closingT c).2) := by
  unfold Machine.NextT
  rw [h]

lemma nextT_resting (m : Machine) (v : ℚ) (c : Bool) (h : m.state = Resting) :
    m.NextT v c = ((m.shift v).restingT.1.state, Resting,
      (m.shift v).restingT.1, (m.shift v).restingT.2) := by
  unfold Machine.NextT
  rw [h]

/-- C5 (amended): the instrumented call agrees with `Next` on the returned
pair, and the returned next state equals the last state recorded during the
call, defaulting to the entry state when no transition was recorded.  In
particular `next = prev` whenever no transition occurred; but `next = prev`
does not rule out intermediate transitions that settle back at the entry
state (see the counterexample). -/
theorem next_trace_spec (m : Machine) (v : ℚ) (c : Bool) :
    (m.NextT v c).1 = (m.Next v c).1 ∧
    (m.NextT v c).2.1 = (m.Next v c).2.1 ∧
    (m.NextT v c).2.2.1 = (m.Next v c).2.2 ∧
    (m.NextT v c).1 = ((m.NextT v c).2.2.2).getLastD ((m.NextT v c).2.1) := by
  cases hs : m.state with
  | Watching =>
    rw [nextT_watching m v c hs, next_watching m v c hs]
    refine ⟨by rw [watchingT_fst], rfl, by rw [watchingT_fst], ?_⟩
    show (m.shift v).watchingT.1.state = (m.shift v).watchingT.2.getLastD Watching
    rw [← show (m.shift v).state = Watching by rw [shift_state, hs]]
    exact watchingT_state _
  | Closing =>
    rw [nextT_closing m v c hs, next_closing m v c hs]
    refine ⟨by rw [closingT_fst], rfl, by rw [closingT_fst], ?_⟩
    show ((m.shift v).closingT c).1.state = ((m.shift v).closingT c).2.getLastD Closing
    rw [← show (m.shift v).state = Closing by rw [shift_state, hs]]
    exact closingT_state _ c
  | Resting =>
    rw [nextT_resting m v c hs, next_resting m v c hs]
    refine ⟨by rw [restingT_fst], rfl, by rw [restingT_fst], ?_⟩
    show (m.shift v).restingT.1.state = (m.shift v).restingT.2.getLastD Resting
    rw [← show (m.shift v).state = Resting by rw [shift_state, hs]]
    exact restingT_state _

/-- Counterexample to C5 as stated: with streak/count thresholds 0 and no
resting period, the first sample makes the machine pass through `Closing`
and settle back at `Watching` within one call, so `Next` returns
`next = prev = Watching` even though a transition through `Closing`
(an intermediate state different from the entry state) occurred. -/
theorem next_trace_counterexample :
    ((NewMachine cfgZero).Next 2 false).1 = ((NewMachine cfgZero).Next 2 false).2.1 ∧
    Closing ∈ ((NewMachine cfgZero).NextT 2 false).2.2.2 ∧
    Closing ≠ ((NewMachine cfgZero).Next 2 false).2.1 := by
  refine ⟨?_, ?_, ?_⟩
  · norm_num [Machine.Next, Machine.NextT, Machine.shift, Machine.watching, Machine.watchingT,
      Machine.closing, Machine.closingT, Machine.resting, Machine.restingT, NewMachine,
      mkAvgWindow, AvgWindow.Push, AvgWindow.Avg, valOrDef, cfgZero,
      DefaultHistoricalSamples, DefaultRecentSamples]
  · norm_num [Machine.Next, Machine.NextT, Machine.shift, Machine.watching, Machine.watchingT,
      Machine.closing, Machine.closingT, Machine.resting, Machine.restingT, NewMachine,
      mkAvgWindow, AvgWindow.Push, AvgWindow.Avg, valOrDef, cfgZero,
      DefaultHistoricalSamples, DefaultRecentSamples]
  · intro hc
    exact State.noConfusion hc

end Reconnx

namespace Reconnx

open State

lemma valOrDef_pos (val d : Nat) (hd : 0 < d) : 0 < valOrDef val d := by
  unfold valOrDef
  split <;> omega

lemma shift_MInv (cfg : MachineConfig) (m : Machine) (v : ℚ) (h : MInv cfg m) :
    MInv cfg (m.shift v) := by
  obtain ⟨hcfg, hrl, hhl, hri, hhi, hrs, hhs, hcl, hre, habs⟩ := h
  set w := if m.config.AbsThreshold > 0 then min v m.config.AbsThreshold else v with hw
  have hrec : (m.shift v).recent = (m.recent.Push w).2 := rfl
  have hhist : (m.shift v).historical = (m.historical.Push ((m.recent.Push w).1)).2 := rfl
  refine ⟨hcfg, ?_, ?_, ?_, ?_, ?_, ?_, fun hne => hcl hne, fun hne => hre hne, ?_⟩
  · rw [hrec, Push_length, hrl]
  · rw [hhist, Push_length, hhl]
  · rw [hrec]
    exact Push_index_lt _ _ hri
  · rw [hhist]
    exact Push_index_lt _ _ hhi
  · rw [hrec]
    exact Push_sum_inv _ _ hri hrs
  · rw [hhist]
    exact Push_sum_inv _ _ hhi hhs
  · intro hA
    have hwle : w ≤ cfg.AbsThreshold := by
      rw [hw, hcfg, if_pos hA]
      exact min_le_right _ _
    obtain ⟨hrb, hhb⟩ := habs hA
    constructor
    · intro x hx
      rw [hrec] at hx
      rcases Push_mem _ _ _ hx with hx' | hx'
      · rw [hx']
        exact hwle
      · exact hrb x hx'
    · intro x hx
      rw [hhist] at hx
      rcases Push_mem _ _ _ hx with hx' | hx'
      · rw [hx']
        exact hrb _ (Push_dropped_mem _ _ hri)
      · exact hhb x hx'

lemma closing_MInv (cfg : MachineConfig) (m : Machine) (c : Bool) (h : MInv cfg m)
    (hst : m.state = Closing) : MInv cfg (m.closing c) := by
  obtain ⟨hcfg, hrl, hhl, hri, hhi, hrs, hhs, hcl, hre, habs⟩ := h
  have hrest : m.restCount = 0 := hre (by rw [hst]; simp)
  rw [closing_eq]
  by_cases hex : (if c then m.closedStreak + 1 else 0) ≥ m.config.ClosingStreak ∨
      (if c then m.closedCount + 1 else m.closedCount) ≥ m.config.ClosingCount
  · rw [if_pos hex]
    exact ⟨hcfg, hrl, hhl, hri, hhi, hrs, hhs, fun _ => ⟨rfl, rfl⟩, fun _ => hrest, habs⟩
  · rw [if_neg hex]
    exact ⟨hcfg, hrl, hhl, hri, hhi, hrs, hhs, fun hne => absurd hst hne, fun _ => hrest, habs⟩

lemma watching_MInv (cfg : MachineConfig) (m : Machine) (h : MInv cfg m)
    (hst : m.state = Watching) : MInv cfg m.watching := by
  rw [watching_eq m hst]
  split
  · refine closing_MInv cfg _ false ?_ rfl
    obtain ⟨hcfg, hrl, hhl, hri, hhi, hrs, hhs, hcl, hre, habs⟩ := h
    exact ⟨hcfg, hrl, hhl, hri, hhi, hrs, hhs, fun hne => absurd rfl hne,
      fun _ => hre (by rw [hst]; simp), habs⟩
  · exact h

lemma resting_MInv (cfg : MachineConfig) (m : Machine) (h : MInv cfg m)
    (hst : m.state = Resting) : MInv cfg m.resting := by
  obtain ⟨hcfg, hrl, hhl, hri, hhi, hrs, hhs, hcl, hre, habs⟩ := h
  have hc := hcl (by rw [hst]; simp)
  simp only [Machine.resting]
  split
  · refine watching_MInv cfg _ ?_ rfl
    exact ⟨hcfg, hrl, hhl, hri, hhi, hrs, hhs, fun _ => hc, fun _ => rfl, habs⟩
  · exact ⟨hcfg, hrl, hhl, hri, hhi, hrs, hhs, fun _ => hc, fun hne => absurd hst hne, habs⟩

lemma MInv_next (cfg : MachineConfig) (m : Machine) (v : ℚ) (c : Bool) (h : MInv cfg m) :
    MInv cfg (m.Next v c).2.2 := by
  have h1 := shift_MInv cfg m v h
  cases hs : m.state with
  | Watching =>
    rw [next_watching m v c hs]
    exact watching_MInv cfg _ h1 (by rw [shift_state, hs])
  | Closing =>
    rw [next_closing m v c hs]
    exact closing_MInv cfg _ c h1 (by rw [shift_state, hs])
  | Resting =>
    rw [next_resting m v c hs]
    exact resting_MInv cfg _ h1 (by rw [shift_state, hs])

lemma NewMachine_MInv (cfg : MachineConfig) : MInv cfg (NewMachine cfg) := by
  refine ⟨rfl, ?_, ?_, ?_, ?_, rfl, rfl, fun _ => ⟨rfl, rfl⟩, fun _ => rfl, ?_⟩
  · exact List.length_replicate _ _
  · exact List.length_replicate _ _
  · show 0 < (List.replicate (valOrDef cfg.RecentSamples DefaultRecentSamples)
      cfg.AbsThreshold).length
    rw [List.length_replicate]
    exact valOrDef_pos _ _ (by norm_num [DefaultRecentSamples])
  · show 0 < (List.replicate (valOrDef cfg.HistoricalSamples DefaultHistoricalSamples)
      cfg.AbsThreshold).length
    rw [List.length_replicate]
    exact valOrDef_pos _ _ (by norm_num [DefaultHistoricalSamples])
  · intro hA
    constructor <;> intro x hx <;> rw [List.eq_of_mem_replicate hx]

lemma reachable_MInv {cfg : MachineConfig} {m : Machine} (hm : Reachable cfg m) :
    MInv cfg m := by
  induction hm with
  | init => exact NewMachine_MInv cfg
  | step v c hr ih => exact MInv_next cfg _ v c ih

/-- C9: on every reachable machine, the closing counters are 0 whenever the
state is not `Closing`, and the resting counter is 0 whenever the state is
not `Resting`: each counter is reset exactly at the transitions out of its
owning state. -/
theorem counter_reset_invariant (cfg : MachineConfig) (m : Machine) (hm : Reachable cfg m) :
    (m.state ≠ Closing → m.closedStreak = 0 ∧ m.closedCount = 0) ∧
    (m.state ≠ Resting → m.restCount = 0) := by
  obtain ⟨hcfg, hrl, hhl, hri, hhi, hrs, hhs, hcl, hre, habs⟩ := reachable_MInv hm
  exact ⟨hcl, hre⟩

/-- Witness for C9 at the freshly constructed example machine. -/
theorem counter_reset_invariant_witness :
    ((NewMachine cfgExample).closedStreak = 0 ∧ (NewMachine cfgExample).closedCount = 0) ∧
    (NewMachine cfgExample).restCount = 0 :=
  ⟨(counter_reset_invariant cfgExample _ Reachable.init).1 (by simp [NewMachine]),
    (counter_reset_invariant cfgExample _ Reachable.init).2 (by simp [NewMachine])⟩

lemma avg_le_of_bound (aw : AvgWindow) (A : ℚ) (hlen : 0 < aw.values.length)
    (hsum : aw.sum = aw.values.sum) (hb : ∀ x ∈ aw.values, x ≤ A) : aw.Avg ≤ A := by
  unfold AvgWindow.Avg
  rw [hsum, div_le_iff₀ (by exact_mod_cast hlen)]
  have hs := List.sum_le_card_nsmul aw.values A hb
  rw [nsmul_eq_mul] at hs
  calc aw.values.sum ≤ (aw.values.length : ℚ) * A := hs
    _ = A * (aw.values.length : ℚ) := by ring

lemma MInv_avg_le (cfg : MachineConfig) (m : Machine) (hA : cfg.AbsThreshold > 0)
    (h : MInv cfg m) :
    m.recent.Avg ≤ cfg.AbsThreshold ∧ m.historical.Avg ≤ cfg.AbsThreshold := by
  obtain ⟨hcfg, hrl, hhl, hri, hhi, hrs, hhs, hcl, hre, habs⟩ := h
  obtain ⟨hrb, hhb⟩ := habs hA
  constructor
  · exact avg_le_of_bound _ _ (by omega) hrs hrb
  · exact avg_le_of_bound _ _ (by omega) hhs hhb

/-- C10: with a positive absolute threshold, both windows start with every
slot equal to `AbsThreshold`, every reachable machine keeps its window
averages at most `AbsThreshold` (incoming values are clamped), and the
absolute trigger evaluated in `Watching` (the post-shift recent average
being at least `AbsThreshold`) can only hold with exact equality. -/
theorem abs_threshold_caps_averages (cfg : MachineConfig) (hA : cfg.AbsThreshold > 0)
    (m : Machine) (hm : Reachable cfg m) :
    (∀ x ∈ (NewMachine cfg).recent.values, x = cfg.AbsThreshold) ∧
    (∀ x ∈ (NewMachine cfg).historical.values, x = cfg.AbsThreshold) ∧
    m.recent.Avg ≤ cfg.AbsThreshold ∧ m.historical.Avg ≤ cfg.AbsThreshold ∧
    ∀ v, (m.shift v).recent.Avg ≥ cfg.AbsThreshold →
      (m.shift v).recent.Avg = cfg.AbsThreshold := by
  have hI := reachable_MInv hm
  have havg := MInv_avg_le cfg m hA hI
  have hshift : ∀ v : ℚ, (m.shift v).recent.Avg ≤ cfg.AbsThreshold := fun v =>
    (MInv_avg_le cfg _ hA (shift_MInv cfg m v hI)).1
  refine ⟨fun x hx => List.eq_of_mem_replicate hx, fun x hx => List.eq_of_mem_replicate hx,
    havg.1, havg.2, fun v hge => le_antisymm (hshift v) hge⟩

/-- Witness for C10 at the example configuration and initial machine. -/
theorem abs_threshold_caps_averages_witness :
    cfgExample.AbsThreshold > 0 ∧
    (NewMachine cfgExample).recent.Avg ≤ cfgExample.AbsThreshold ∧
    ((NewMachine cfgExample).shift 2).recent.Avg ≥ cfgExample.AbsThreshold ∧
    ((NewMachine cfgExample).shift 2).recent.Avg = cfgExample.AbsThreshold := by
  have hA : cfgExample.AbsThreshold > 0 := by norm_num [cfgExample]
  have hge : ((NewMachine cfgExample).shift 2).recent.Avg ≥ cfgExample.AbsThreshold := by
    norm_num [NewMachine, cfgExample, Machine.shift, mkAvgWindow, AvgWindow.Push,
      AvgWindow.Avg, valOrDef]
  exact ⟨hA,
    (abs_threshold_caps_averages cfgExample hA _ Reachable.init).2.2.1,
    hge,
    (abs_threshold_caps_averages cfgExample hA _ Reachable.init).2.2.2.2 2 hge⟩

end Reconnx
